import Mathlib

/-!
Verification of the TraceParse core: a shallow embedding of the Go sources
(`pkg/core/parse.go`, `pkg/core/register_detector.go`, and the windowed
trace-store file) together with theorems settling the specification claims.

Strings are modelled as lists of characters; the inputs of interest are
ASCII, where Go's byte-oriented string operations and the character-level
model agree.  Go's `uint32`/`uint64` values are modelled as `Nat` with
explicit range checks (mirroring `strconv`'s overflow checks), `int` as
`Int`.  Fallible Go functions return `Option`/`Except`; a Go runtime panic
is modelled as a distinguished result (`LineResult.fault`, or `none` at the
store level).
-/

namespace TraceParse

/-- ASCII coverage of Go's `unicode.IsSpace` as used by `strings.TrimSpace`
(the trace data is ASCII, where the two coincide). -/
def goIsSpace (c : Char) : Bool :=
  c = ' ' || c = '\t' || c = '\n' || c = '\x0b' || c = '\x0c' || c = '\r'

/-- Go `strings.TrimSpace`: drop whitespace from both ends. -/
def goTrim (cs : List Char) : List Char :=
  ((cs.dropWhile goIsSpace).reverse.dropWhile goIsSpace).reverse

/-- Go `strings.Split(s, sep)` for a one-character separator: the list of
(possibly empty) groups between occurrences of `sep`. -/
def splitOnChar (sep : Char) : List Char → List (List Char)
  | [] => [[]]
  | c :: cs =>
    let r := splitOnChar sep cs
    if c = sep then [] :: r
    else
      match r with
      | [] => [[c]]
      | g :: gs => (c :: g) :: gs

/-- Split at the first occurrence of `sep`, if any (helper for Go
`strings.SplitN (s, sep, 2)` and `strings.Index`). -/
def splitFirst (sep : Char) : List Char → Option (List Char × List Char)
  | [] => none
  | c :: cs =>
    if c = sep then some ([], cs)
    else (splitFirst sep cs).map (fun p => (c :: p.1, p.2))

/-- Go `strings.SplitN (s, sep, 2)` for a one-character separator. -/
def splitN2 (sep : Char) (cs : List Char) : List (List Char) :=
  match splitFirst sep cs with
  | none => [cs]
  | some (a, b) => [a, b]

/-- Go `strings.HasPrefix`. -/
def hasPre : List Char → List Char → Bool
  | [], _ => true
  | _ :: _, [] => false
  | p :: ps, c :: cs => p = c && hasPre ps cs

/-- Go `strings.HasSuffix`. -/
def hasSuf (p cs : List Char) : Bool :=
  hasPre p.reverse cs.reverse

/-- Go `strconv`'s `lower(c) = c | ('x' - 'X')`. -/
def lower (c : Char) : Char := Char.ofNat (c.toNat ||| 32)

/-- The digit decoding used by Go `strconv.ParseUint`'s loop:
`'0'..'9'` and (case-insensitively) `'a'..'z'`. -/
def digitVal (c : Char) : Option Nat :=
  if '0' ≤ c ∧ c ≤ '9' then some (c.toNat - '0'.toNat)
  else if 'a' ≤ lower c ∧ lower c ≤ 'z' then some ((lower c).toNat - 'a'.toNat + 10)
  else none

/-- Base-prefix handling of Go `strconv.ParseUint` when called with base 0:
`0b`/`0o`/`0x` prefixes, legacy leading-`0` octal, else decimal.  Returns
the effective base and the remaining characters. -/
def radixSplit (cs : List Char) : Nat × List Char :=
  match cs with
  | [] => (10, [])
  | c0 :: rest =>
    if c0 = '0' then
      match rest with
      | [] => (8, [])
      | c :: rest2 =>
        if rest2 ≠ [] ∧ lower c = 'b' then (2, rest2)
        else if rest2 ≠ [] ∧ lower c = 'o' then (8, rest2)
        else if rest2 ≠ [] ∧ lower c = 'x' then (16, rest2)
        else (8, rest)
    else (10, c0 :: rest)

/-- The digit-accumulation loop of Go `strconv.ParseUint`.  `base0` records
whether the caller passed base 0 (underscores are then skipped, subject to
the final `underscoreOK` check); the boolean in the result records whether
an underscore was seen.  Any overflow past `maxVal` is an error (`none`),
exactly like Go's cutoff/wraparound checks. -/
def parseLoop (b maxVal : Nat) (base0 : Bool) : List Char → Nat → Bool → Option (Nat × Bool)
  | [], n, sawU => some (n, sawU)
  | c :: cs, n, sawU =>
    if base0 ∧ c = '_' then parseLoop b maxVal base0 cs n true
    else
      match digitVal c with
      | none => none
      | some d =>
        if b ≤ d then none
        else if maxVal < n * b + d then none
        else parseLoop b maxVal base0 cs (n * b + d) sawU

/-- The scanning loop of Go `strconv`'s `underscoreOK`. -/
def uLoop (hex : Bool) : List Char → Char → Bool
  | [], saw => saw ≠ '_'
  | c :: rest, saw =>
    if ('0' ≤ c ∧ c ≤ '9') ∨ (hex ∧ 'a' ≤ lower c ∧ lower c ≤ 'f') then uLoop hex rest '0'
    else if c = '_' then (if saw ≠ '0' then false else uLoop hex rest '_')
    else if saw = '_' then false
    else uLoop hex rest '!'

/-- Go `strconv`'s `underscoreOK`: underscores may only sit between digits
or between a base marker and a digit. -/
def underscoreOK (cs : List Char) : Bool :=
  let cs1 := match cs with
    | c :: rest => if c = '-' ∨ c = '+' then rest else cs
    | [] => []
  match cs1 with
  | c0 :: c :: rest =>
    if c0 = '0' ∧ (lower c = 'b' ∨ lower c = 'o' ∨ lower c = 'x') then
      uLoop (lower c = 'x') rest '0'
    else uLoop false cs1 '^'
  | _ => uLoop false cs1 '^'

/-- Go `strconv.ParseUint (s, base, bitSize)` on the character list of `s`.
Returns `none` on any syntax or range error. -/
def goParseUintL (cs : List Char) (base bitSize : Nat) : Option Nat :=
  if cs = [] then none
  else if 64 < bitSize then none
  else
    match (if 2 ≤ base ∧ base ≤ 36 then some (base, cs)
           else if base = 0 then some (radixSplit cs) else none) with
    | none => none
    | some (b, ds) =>
      match parseLoop b (2 ^ (if bitSize = 0 then 64 else bitSize) - 1)
          (base = 0) ds 0 false with
      | none => none
      | some (v, sawU) => if sawU ∧ ¬ underscoreOK cs then none else some v

/-- Go `strconv.Atoi` (on 64-bit platforms: `ParseInt (s, 10, 64)`):
optional sign, then base-10 digits, with the `int64` range check. -/
def goAtoi (s : String) : Option Int :=
  let cs := s.data
  let p : Bool × List Char :=
    match cs with
    | '+' :: r => (false, r)
    | '-' :: r => (true, r)
    | _ => (false, cs)
  match goParseUintL p.2 10 64 with
  | none => none
  | some un =>
    if p.1 then (if 2 ^ 63 < un then none else some (-(un : Int)))
    else (if 2 ^ 63 - 1 < un then none else some (un : Int))

/-- The `TraceLine` record of `parse.go`: one parsed trace-log line.
`regs` holds the 31 general registers x0..x30 (the Go `[31]uint64`). -/
structure TraceLine where
  step : Nat
  addr : Nat
  offset : Nat
  instr : String
  regs : List Nat
  sp : Nat
  pc : Nat
deriving DecidableEq, Repr

/-- The errors `ParseLine` reports: wrong `|`-field count, or a named
numeric field whose (trimmed) value failed to parse. -/
inductive ParseErr where
  | fieldCount (n : Nat)
  | fieldErr (name : String) (value : String)
deriving DecidableEq, Repr

/-- Outcome of `ParseLine`: a record, a reported error, or a Go runtime
panic (`fault`). -/
inductive LineResult where
  | ok (t : TraceLine)
  | fail (e : ParseErr)
  | fault
deriving DecidableEq, Repr

/-- The quote-stripping step of `ParseLine` (`parse.go` lines 85-88):
if the trimmed field starts and ends with `"`, Go slices `s[1 : len(s)-1]`.
For the one-character string `"` that slice is `s[1:0]`, a runtime panic,
modelled as `none`. -/
def stripQuotes (cs : List Char) : Option (List Char) :=
  if hasPre ['"'] cs ∧ hasSuf ['"'] cs then
    if cs.length < 2 then none
    else some ((cs.drop 1).take (cs.length - 2))
  else some cs

/-- Parse the numeric field at index `i` like `ParseLine` does for every
field except the step: `strconv.ParseUint (strings.TrimSpace f, 0, 64)`,
with the field-specific error carrying the trimmed offending value. -/
def parseNumF (fields : List (List Char)) (i : Nat) (name : String) : Except ParseErr Nat :=
  match goParseUintL (goTrim (fields.getD i [])) 0 64 with
  | some v => .ok v
  | none => .error (.fieldErr name ⟨goTrim (fields.getD i [])⟩)

/-- The `for i := 0; i <= 28` loop of `ParseLine`: parse fields `4+i` as
registers `x i`, stopping at the first failure. -/
def parseRegsList (fields : List (List Char)) : List Nat → Except ParseErr (List Nat)
  | [] => .ok []
  | i :: rest =>
    match parseNumF fields (4 + i) ("x" ++ toString i) with
    | .error e => .error e
    | .ok v =>
      match parseRegsList fields rest with
      | .error e => .error e
      | .ok vs => .ok (v :: vs)

/-- Body of `ParseLine` after splitting on `|` (`parse.go` lines 55-128):
exactly 37 fields; field 0 is the step in strict base 16 with 32-bit range;
fields 1, 2, 4..36 are base-0 (0x-prefixed / octal / decimal) 64-bit
numbers; field 3 is the quote-stripped instruction text. -/
def parseLineFields (fields : List (List Char)) : LineResult :=
  if fields.length ≠ 37 then .fail (.fieldCount fields.length)
  else
    match goParseUintL (goTrim (fields.getD 0 [])) 16 32 with
    | none => .fail (.fieldErr "step" ⟨goTrim (fields.getD 0 [])⟩)
    | some step =>
    match goParseUintL (goTrim (fields.getD 1 [])) 0 64 with
    | none => .fail (.fieldErr "addr" ⟨goTrim (fields.getD 1 [])⟩)
    | some addr =>
    match goParseUintL (goTrim (fields.getD 2 [])) 0 64 with
    | none => .fail (.fieldErr "offset" ⟨goTrim (fields.getD 2 [])⟩)
    | some offset =>
    match stripQuotes (goTrim (fields.getD 3 [])) with
    | none => .fault
    | some instr =>
    match parseRegsList fields (List.range 29) with
    | .error e => .fail e
    | .ok xs =>
    match parseNumF fields 33 "x29" with
    | .error e => .fail e
    | .ok x29 =>
    match parseNumF fields 34 "x30" with
    | .error e => .fail e
    | .ok x30 =>
    match parseNumF fields 35 "sp" with
    | .error e => .fail e
    | .ok sp =>
    match parseNumF fields 36 "pc" with
    | .error e => .fail e
    | .ok pc => .ok ⟨step, addr, offset, ⟨instr⟩, xs ++ [x29, x30], sp, pc⟩

/-- `ParseLine` of `parse.go`: split the line on `|` and parse the fields. -/
def parseLine (line : String) : LineResult :=
  parseLineFields (splitOnChar '|' line.data)

/-- Fold a digit list in base `b`, failing on a non-digit or a digit out of
range: the standard positional value of a numeral (spec side). -/
def numFrom? (b : Nat) : List Char → Nat → Option Nat
  | [], acc => some acc
  | c :: cs, acc =>
    match digitVal c with
    | some d => if d < b then numFrom? b cs (acc * b + d) else none
    | none => none

/-- `cs` is a base-`b` numeral denoting `v` (spec side: "the value written
in the line"). -/
def isNumeralB (b : Nat) (cs : List Char) (v : Nat) : Bool :=
  !cs.isEmpty && (numFrom? b cs 0 == some v)

/-- `cs` is a `0x`/`0X`-prefixed hexadecimal numeral denoting `v`. -/
def isHex0xB (cs : List Char) (v : Nat) : Bool :=
  match cs with
  | c0 :: c :: ds => c0 == '0' && lower c == 'x' && isNumeralB 16 ds v
  | _ => false

/-- `cs` writes the number `v` the way the spec allows for address-like
fields: `0x`/`0X`-prefixed hexadecimal, or decimal (without a spurious
leading zero, which Go's base-0 parse would read as octal). -/
def isGoNumB (cs : List Char) (v : Nat) : Bool :=
  isHex0xB cs v || (isNumeralB 10 cs v && (!(cs.head? == some '0') || cs == ['0']))

/-- `BLLogEntry` of `register_detector.go` (the embedded `LogEntry` is
inlined as `step`/`content`).  The Go `Type` field is named `rwType`
(`type` is reserved in Lean). -/
structure BLLogEntry where
  step : Int
  content : String
  address : String
  function : String
  memoryHex : List String
deriving DecidableEq, Repr

/-- `RWLogEntry` of `register_detector.go`. -/
structure RWLogEntry where
  step : Int
  content : String
  rwType : String
  address : String
  offset : String
  memoryHex : List String
deriving DecidableEq, Repr

/-- Go `strings.LastIndex (s, ")")` generalised to one character. -/
def lastIdxOf (c : Char) (cs : List Char) : Option Nat :=
  (cs.reverse.findIdx? (· = c)).map (fun j => cs.length - 1 - j)

/-- `ParseRWLine` of `register_detector.go` (lines 146-193): split once on
`:`, `Atoi` the step, read the access kind from a `(w)`/`(r)` marker, and
slice the text between the FIRST `(` and the last `)` (note: the first `(`
is the one of the kind marker itself), splitting it at the first `+` into
address and offset. -/
def ParseRWLine (line : String) : Except String RWLogEntry :=
  let parts := splitN2 ':' line.data
  if parts.length < 2 then .error "invalid RW log format"
  else
    match goAtoi ⟨goTrim (parts.getD 0 [])⟩ with
    | none => .error "invalid step number"
    | some step =>
      let content := goTrim (parts.getD 1 [])
      let logType : String :=
        if hasPre ['(', 'w', ')'] content then "w"
        else if hasPre ['(', 'r', ')'] content then "r"
        else ""
      let ao : List Char × List Char :=
        match content.findIdx? (· = '('), lastIdxOf ')' content with
        | some si, some ei =>
          if si < ei then
            let addrPart := (content.drop (si + 1)).take (ei - si - 1)
            match splitFirst '+' addrPart with
            | some p => (goTrim p.1, goTrim p.2)
            | none => (addrPart, [])
          else ([], [])
        | _, _ => ([], [])
      .ok ⟨step, line, logType, ⟨ao.1⟩, ⟨ao.2⟩, []⟩

/-- `GetBLLogsForStep` of `register_detector.go` (lines 302-319).  The Go
`map[int][]*BLLogEntry` is modelled as an association list with distinct
keys; the fold mirrors the `for s := range` nearest-preceding scan, whose
result does not depend on iteration order. -/
def GetBLLogsForStep (m : List (Int × List BLLogEntry)) (step : Int) : List BLLogEntry :=
  match m.lookup step with
  | some logs => logs
  | none =>
    (m.foldl (fun acc p => if p.1 ≤ step ∧ acc.1 < p.1 then p else acc)
      ((-1 : Int), ([] : List BLLogEntry))).2

/-- `GetRWLogsForStep` of `register_detector.go` (lines 322-339), same
structure as `GetBLLogsForStep`. -/
def GetRWLogsForStep (m : List (Int × List RWLogEntry)) (step : Int) : List RWLogEntry :=
  match m.lookup step with
  | some logs => logs
  | none =>
    (m.foldl (fun acc p => if p.1 ≤ step ∧ acc.1 < p.1 then p else acc)
      ((-1 : Int), ([] : List RWLogEntry))).2

/-- `RegisterChangeDetector`: last-seen snapshot of 31 GPRs + SP + PC
(indices 0..30, 31, 32 of `lastValues`) and the has-previous flag. -/
structure RegisterChangeDetector where
  lastValues : List Nat
  hasPrev : Bool
deriving DecidableEq, Repr

/-- `NewRegisterChangeDetector`: the Go zero value (`[33]uint64{}`, false). -/
def NewRegisterChangeDetector : RegisterChangeDetector :=
  ⟨List.replicate 33 0, false⟩

/-- Access `current.Regs[i]` (always in bounds in Go: `Regs` is `[31]uint64`). -/
def regVal (t : TraceLine) (i : Nat) : Nat := t.regs.getD i 0

/-- The snapshot written by `Update`: registers 0..30, then SP, then PC. -/
def regSnapshot (t : TraceLine) : List Nat :=
  (List.range 31).map (regVal t) ++ [t.sp, t.pc]

/-- `Update` of `register_detector.go` (lines 14-45) for a non-nil record:
if a previous snapshot exists, collect the indices (0..30 registers,
31 = SP, 32 = PC) whose value differs from it; then overwrite the snapshot.
The Go `map[int]bool` change set is modelled as the ascending index list. -/
def detectorUpdate (r : RegisterChangeDetector) (current : TraceLine) :
    List Nat × RegisterChangeDetector :=
  let changes : List Nat :=
    if r.hasPrev then
      ((List.range 31).filter (fun i => regVal current i ≠ r.lastValues.getD i 0))
        ++ (if current.sp ≠ r.lastValues.getD 31 0 then [31] else [])
        ++ (if current.pc ≠ r.lastValues.getD 32 0 then [32] else [])
    else []
  (changes, ⟨regSnapshot current, true⟩)

/-- The windowed `TraceManager` of the trace-store file: window contents
(`none` entries are the placeholders for unparseable lines), previous-line
cache, cursor, total line count, loaded `[start, end)` range, file name,
window size and the single-flight reload guard. -/
structure TraceManager where
  instructions : List (Option TraceLine)
  prevLine : Option TraceLine
  currentIndex : Int
  totalLines : Int
  loadedRange : Int × Int
  fileName : String
  windowSize : Int
  isLoading : Bool
deriving DecidableEq, Repr

/-- `NewTraceManager` of the trace-store file. -/
def NewTraceManager : TraceManager :=
  ⟨[], none, 0, 0, (-1, -1), "", 2000, false⟩

/-- `GetCurrent` of the trace-store file: the window slot under the cursor,
or nil when the cursor is outside the loaded window. -/
def GetCurrent (tm : TraceManager) : Option TraceLine :=
  let windowIndex := tm.currentIndex - tm.loadedRange.1
  if tm.loadedRange.1 ≤ tm.currentIndex ∧ tm.currentIndex < tm.loadedRange.2
      ∧ 0 ≤ windowIndex ∧ windowIndex < (tm.instructions.length : Int) then
    tm.instructions.getD windowIndex.toNat none
  else none

/-- `GetLine` of the trace-store file (lines 136-153): inside the loaded
range return the cached slot; otherwise, for an index inside the file,
Go fires an asynchronous reload and returns nil immediately (the background
mutation is not part of this immediate transition); outside the file,
return nil. -/
def GetLine (tm : TraceManager) (index : Int) : Option TraceLine :=
  if tm.loadedRange.1 ≤ index ∧ index < tm.loadedRange.2
      ∧ 0 ≤ index - tm.loadedRange.1
      ∧ index - tm.loadedRange.1 < (tm.instructions.length : Int) then
    tm.instructions.getD (index - tm.loadedRange.1).toNat none
  else if 0 ≤ index ∧ index < tm.totalLines then none
  else none

/-- `Next` of the trace-store file (lines 268-281): succeed below
`totalLines - 1`, caching the current record as the previous line.  The
near-edge asynchronous reload trigger mutates nothing synchronously. -/
def Next (tm : TraceManager) : Bool × TraceManager :=
  if tm.currentIndex < tm.totalLines - 1 then
    (true, { tm with prevLine := GetCurrent tm, currentIndex := tm.currentIndex + 1 })
  else (false, tm)

/-- `Prev` of the trace-store file (lines 283-300). -/
def Prev (tm : TraceManager) : Bool × TraceManager :=
  if 0 < tm.currentIndex then
    let tm1 := { tm with currentIndex := tm.currentIndex - 1 }
    (true, { tm1 with
      prevLine := if 0 ≤ tm1.currentIndex - 1 then GetLine tm1 (tm1.currentIndex - 1) else none })
  else (false, tm)

/-- `GoTo` of the trace-store file (lines 302-318). -/
def GoTo (tm : TraceManager) (index : Int) : Bool × TraceManager :=
  if 0 ≤ index ∧ index < tm.totalLines then
    (true, { tm with
      prevLine := if 0 ≤ index - 1 then GetLine tm (index - 1) else none,
      currentIndex := index })
  else (false, tm)

/-- The window computation of `LoadWindow` (lines 54-67): center the window
of `windowSize` lines on `center`, clamping at both file ends.  Go's `/`
truncates toward zero, i.e. `Int.tdiv`. -/
def loadWindowRange (center windowSize totalLines : Int) : Int × Int :=
  let halfWindow := windowSize.tdiv 2
  let start1 := center - halfWindow
  let start2 := if start1 < 0 then 0 else start1
  let end1 := start2 + windowSize
  if totalLines < end1 then
    let e := totalLines
    let s := e - windowSize
    (if s < 0 then 0 else s, e)
  else (start2, end1)

/-- One line of `loadFileWindow`'s scan: a parsed record, a `nil`
placeholder for a line whose parse failed, or `none` for a panic that
aborts the whole load. -/
def instrOfLine (l : String) : Option (Option TraceLine) :=
  match parseLine l with
  | .ok t => some (some t)
  | .fail _ => some none
  | .fault => none

/-- The scanner loop of `loadFileWindow` (lines 90-109): walk the file
lines counting from `cur`; a line whose index is in `[s, e)` is parsed and
appended (placeholder on error, abort on panic); the loop breaks once the
incremented counter reaches `e`. -/
def scanLines (s e : Int) : List String → Int → Option (List (Option TraceLine))
  | [], _ => some []
  | l :: rest, cur =>
    if s ≤ cur ∧ cur < e then
      match instrOfLine l with
      | none => none
      | some x =>
        if e ≤ cur + 1 then some [x]
        else (scanLines s e rest (cur + 1)).map (fun t => x :: t)
    else
      if e ≤ cur + 1 then some []
      else scanLines s e rest (cur + 1)

/-- `loadFileWindow` (lines 77-120) on the abstracted file contents:
replace the window with the scanned `[start, e)` lines, record the loaded
range, and recenter the cursor if it fell outside the new window.
`none` models the propagated panic of an aborted scan. -/
def loadFileWindow (tm : TraceManager) (file : List String) (start e : Int) :
    Option TraceManager :=
  (scanLines start e file 0).map (fun instrs =>
    { tm with
      instructions := instrs,
      loadedRange := (start, e),
      currentIndex :=
        if tm.currentIndex < start ∨ e ≤ tm.currentIndex then
          start + (instrs.length : Int).tdiv 2
        else tm.currentIndex })

/-- `LoadWindow` (lines 46-75): no-op without a file name or while a reload
is in flight (the `isLoading` toggle is net unchanged thanks to `defer`),
no-op when the computed window is already loaded, else reload. -/
def LoadWindow (tm : TraceManager) (file : List String) (center : Int) :
    Option TraceManager :=
  if tm.fileName = "" ∨ tm.isLoading then some tm
  else
    let se := loadWindowRange center tm.windowSize tm.totalLines
    if se = tm.loadedRange then some tm
    else loadFileWindow tm file se.1 se.2

/-- `ReadTraceFile` of the trace-store file (lines 236-257): count the
lines, store the file name, and load the initial window centered on 0. -/
def ReadTraceFile (file : List String) (filename : String) (tm : TraceManager) :
    Option TraceManager :=
  LoadWindow { tm with totalLines := (file.length : Int), fileName := filename } file 0

/-- Spec-side: what a window slot must hold for a given file line —
the parsed record for a well-formed line, an absent placeholder otherwise. -/
def lineRecord (l : String) : Option TraceLine :=
  match parseLine l with
  | .ok t => some t
  | _ => none

/-- The line parses to a record. -/
def isOkB (l : String) : Bool :=
  match parseLine l with
  | .ok _ => true
  | _ => false

/-- The line fails with a reported parse error (malformed, non-fatally). -/
def isFailB (l : String) : Bool :=
  match parseLine l with
  | .fail _ => true
  | _ => false

/-! ## Auxiliary lemmas for the step-indexed log store -/

/-- Invariant of the nearest-preceding fold of `GetBLLogsForStep` /
`GetRWLogsForStep`: the result is the accumulator or an in-range list
element, its key only grows, and it dominates every in-range key. -/
theorem nearest_fold_spec {α : Type} (step : Int) (l : List (Int × List α))
    (acc : Int × List α) :
    (l.foldl (fun acc p => if p.1 ≤ step ∧ acc.1 < p.1 then p else acc) acc = acc ∨
      (l.foldl (fun acc p => if p.1 ≤ step ∧ acc.1 < p.1 then p else acc) acc ∈ l ∧
       (l.foldl (fun acc p => if p.1 ≤ step ∧ acc.1 < p.1 then p else acc) acc).1 ≤ step)) ∧
    acc.1 ≤ (l.foldl (fun acc p => if p.1 ≤ step ∧ acc.1 < p.1 then p else acc) acc).1 ∧
    ∀ p ∈ l, p.1 ≤ step →
      p.1 ≤ (l.foldl (fun acc p => if p.1 ≤ step ∧ acc.1 < p.1 then p else acc) acc).1 := by
  induction l generalizing acc with
  | nil => simp
  | cons p l ih =>
    simp only [List.foldl_cons]
    by_cases h : p.1 ≤ step ∧ acc.1 < p.1
    · rw [if_pos h]
      obtain ⟨h1, h2, h3⟩ := ih p
      refine ⟨?_, le_trans (le_of_lt h.2) h2, ?_⟩
      · rcases h1 with h1 | h1
        · refine Or.inr ⟨?_, ?_⟩
          · rw [h1]; exact List.mem_cons_self _ _
          · rw [h1]; exact h.1
        · exact Or.inr ⟨List.mem_cons_of_mem _ h1.1, h1.2⟩
      · intro q hq hqs
        rcases List.mem_cons.mp hq with rfl | hq
        · exact h2
        · exact h3 q hq hqs
    · rw [if_neg h]
      obtain ⟨h1, h2, h3⟩ := ih acc
      refine ⟨?_, h2, ?_⟩
      · rcases h1 with h1 | h1
        · exact Or.inl h1
        · exact Or.inr ⟨List.mem_cons_of_mem _ h1.1, h1.2⟩
      · intro q hq hqs
        rcases List.mem_cons.mp hq with rfl | hq
        · exact le_trans (by omega) h2
        · exact h3 q hq hqs

/-- A successful association-list lookup is a membership. -/
theorem lookup_mem {β : Type} :
    ∀ {l : List (Int × β)} {k : Int} {v : β}, l.lookup k = some v → (k, v) ∈ l := by
  intro l
  induction l with
  | nil => intro k v h; simp [List.lookup] at h
  | cons p l ih =>
    intro k v h
    rcases p with ⟨a, b⟩
    by_cases hk : k = a
    · subst hk
      simp [List.lookup] at h
      exact h ▸ List.mem_cons_self _ _
    · have hb : (k == a) = false := beq_eq_false_iff_ne.mpr hk
      simp [List.lookup, hb] at h
      exact List.mem_cons_of_mem _ (ih h)

/-- With distinct keys, a key determines its associated value. -/
theorem keys_nodup_eq {β : Type} :
    ∀ {l : List (Int × β)} {k : Int} {a b : β},
      (l.map Prod.fst).Nodup → (k, a) ∈ l → (k, b) ∈ l → a = b := by
  intro l
  induction l with
  | nil => intro k a b _ ha; simp at ha
  | cons p l ih =>
    intro k a b hnd ha hb
    rw [List.map_cons, List.nodup_cons] at hnd
    rcases List.mem_cons.mp ha with ha | ha <;> rcases List.mem_cons.mp hb with hb | hb
    · rw [← ha] at hb; exact (Prod.mk.injEq _ _ _ _ ▸ hb).2.symm ▸ rfl
    · exact absurd (List.mem_map_of_mem Prod.fst hb) (by rw [← ha] at hnd; exact hnd.1)
    · exact absurd (List.mem_map_of_mem Prod.fst ha) (by rw [← hb] at hnd; exact hnd.1)
    · exact ih hnd.2 ha hb

/-- If no recorded key is `≤ step` then in particular `step` is unrecorded. -/
theorem lookup_none_of_no_key_le {β : Type} :
    ∀ {l : List (Int × β)} {step : Int},
      (∀ p ∈ l, ¬ p.1 ≤ step) → l.lookup step = none := by
  intro l
  induction l with
  | nil => intro step _; rfl
  | cons p l ih =>
    intro step h
    rcases p with ⟨a, b⟩
    have hne : step ≠ a := by
      intro he
      exact h (a, b) (List.mem_cons_self _ _) (by simp [← he])
    have hb : (step == a) = false := beq_eq_false_iff_ne.mpr hne
    simp only [List.lookup, hb]
    exact ih fun q hq => h q (List.mem_cons_of_mem _ hq)

/-- C2 (amended: all recorded steps are non-negative, as produced by the
intended log formats — the `-1` sentinel of the source makes the fallback
miss negative steps): `GetBLLogsForStep` / `GetRWLogsForStep` return the
list stored at the exact step when present, otherwise the list of the
greatest recorded step strictly below it, and the empty list when nothing
is recorded at or before the step. -/
theorem c2_lookup_nearest
    (mb : List (Int × List BLLogEntry)) (mr : List (Int × List RWLogEntry)) (step : Int)
    (hnb : (mb.map Prod.fst).Nodup) (hnr : (mr.map Prod.fst).Nodup)
    (hkb : ∀ p ∈ mb, 0 ≤ p.1) (hkr : ∀ p ∈ mr, 0 ≤ p.1) :
    (∀ logs, mb.lookup step = some logs → GetBLLogsForStep mb step = logs) ∧
    (mb.lookup step = none →
      ∀ k logs, (k, logs) ∈ mb → k < step → (∀ p ∈ mb, p.1 ≤ step → p.1 ≤ k) →
        GetBLLogsForStep mb step = logs) ∧
    ((∀ p ∈ mb, ¬ p.1 ≤ step) → GetBLLogsForStep mb step = []) ∧
    (∀ logs, mr.lookup step = some logs → GetRWLogsForStep mr step = logs) ∧
    (mr.lookup step = none →
      ∀ k logs, (k, logs) ∈ mr → k < step → (∀ p ∈ mr, p.1 ≤ step → p.1 ≤ k) →
        GetRWLogsForStep mr step = logs) ∧
    ((∀ p ∈ mr, ¬ p.1 ≤ step) → GetRWLogsForStep mr step = []) := by
  have nearest : ∀ (α : Type) (m : List (Int × List α)),
      (m.map Prod.fst).Nodup → (∀ p ∈ m, 0 ≤ p.1) →
      ∀ k logs, (k, logs) ∈ m → k < step → (∀ p ∈ m, p.1 ≤ step → p.1 ≤ k) →
        (m.foldl (fun acc p => if p.1 ≤ step ∧ acc.1 < p.1 then p else acc)
          ((-1 : Int), ([] : List α))).2 = logs := by
    intro α m hnd hk k logs hmem hlt hmax
    obtain ⟨h1, _h2, h3⟩ := nearest_fold_spec step m ((-1 : Int), ([] : List α))
    set R := m.foldl (fun acc p => if p.1 ≤ step ∧ acc.1 < p.1 then p else acc)
      ((-1 : Int), ([] : List α)) with hR
    have hkR : k ≤ R.1 := h3 (k, logs) hmem (le_of_lt hlt)
    rcases h1 with h1 | h1
    · exfalso
      have : (0 : Int) ≤ k := hk (k, logs) hmem
      rw [h1] at hkR
      omega
    · have hRk : R.1 ≤ k := hmax R h1.1 h1.2
      have hkeq : R.1 = k := le_antisymm hRk hkR
      have hRmem : (k, R.2) ∈ m := by
        have := h1.1
        rwa [show R = (R.1, R.2) from rfl, hkeq] at this
      exact keys_nodup_eq hnd hRmem hmem
  have stays : ∀ (α : Type) (m : List (Int × List α)),
      (∀ p ∈ m, ¬ p.1 ≤ step) →
      (m.foldl (fun acc p => if p.1 ≤ step ∧ acc.1 < p.1 then p else acc)
        ((-1 : Int), ([] : List α))).2 = [] := by
    intro α m hno
    obtain ⟨h1, _h2, _h3⟩ := nearest_fold_spec step m ((-1 : Int), ([] : List α))
    rcases h1 with h1 | h1
    · rw [h1]
    · exact absurd h1.2 (hno _ h1.1)
  refine ⟨fun logs hl => ?_, fun hnone k logs hmem hlt hmax => ?_, fun hno => ?_,
    fun logs hl => ?_, fun hnone k logs hmem hlt hmax => ?_, fun hno => ?_⟩
  · unfold GetBLLogsForStep; rw [hl]
  · unfold GetBLLogsForStep
    rw [hnone]
    exact nearest BLLogEntry mb hnb hkb k logs hmem hlt hmax
  · unfold GetBLLogsForStep
    rw [lookup_none_of_no_key_le hno]
    exact stays BLLogEntry mb hno
  · unfold GetRWLogsForStep; rw [hl]
  · unfold GetRWLogsForStep
    rw [hnone]
    exact nearest RWLogEntry mr hnr hkr k logs hmem hlt hmax
  · unfold GetRWLogsForStep
    rw [lookup_none_of_no_key_le hno]
    exact stays RWLogEntry mr hno

/-- Witness for C2: call-log-style entries recorded at steps 5 and 12 only;
lookup at 12 returns the entries at 12, at 20 the entries at 12 (nearest
preceding), at 3 the empty list. -/
theorem c2_lookup_nearest_witness :
    GetRWLogsForStep
        [((5 : Int), [(⟨5, "five", "r", "0x1", "", []⟩ : RWLogEntry)]),
         ((12 : Int), [(⟨12, "twelve", "w", "0x2", "", []⟩ : RWLogEntry)])] 12 =
      [(⟨12, "twelve", "w", "0x2", "", []⟩ : RWLogEntry)] ∧
    GetRWLogsForStep
        [((5 : Int), [(⟨5, "five", "r", "0x1", "", []⟩ : RWLogEntry)]),
         ((12 : Int), [(⟨12, "twelve", "w", "0x2", "", []⟩ : RWLogEntry)])] 20 =
      [(⟨12, "twelve", "w", "0x2", "", []⟩ : RWLogEntry)] ∧
    GetRWLogsForStep
        [((5 : Int), [(⟨5, "five", "r", "0x1", "", []⟩ : RWLogEntry)]),
         ((12 : Int), [(⟨12, "twelve", "w", "0x2", "", []⟩ : RWLogEntry)])] 3 = [] := by
  refine ⟨?_, ?_, ?_⟩
  · exact (c2_lookup_nearest [] _ 12 (by decide) (by decide) (by decide)
      (by decide)).2.2.2.1 _ (by decide)
  · exact (c2_lookup_nearest [] _ 20 (by decide) (by decide) (by decide)
      (by decide)).2.2.2.2.1 (by decide) 12 _ (by decide) (by decide) (by decide)
  · exact (c2_lookup_nearest [] _ 3 (by decide) (by decide) (by decide)
      (by decide)).2.2.2.2.2 (by decide)

/-- Counterexample to C2 as stated: with (only) an entry recorded at step
`-3`, the greatest recorded step strictly below 0 is `-3`, yet `Lookup 0`
returns the empty list instead of that entry list — the fold's `-1`
sentinel hides negative steps. -/
theorem c2_counterexample :
    GetRWLogsForStep [((-3 : Int), [(⟨-3, "neg", "r", "0x1", "", []⟩ : RWLogEntry)])] 0
        = [] ∧
    ((-3 : Int), [(⟨-3, "neg", "r", "0x1", "", []⟩ : RWLogEntry)]) ∈
        [((-3 : Int), [(⟨-3, "neg", "r", "0x1", "", []⟩ : RWLogEntry)])] ∧
    (-3 : Int) < 0 ∧
    [((-3 : Int), [(⟨-3, "neg", "r", "0x1", "", []⟩ : RWLogEntry)])].lookup (0 : Int)
        = none := by
  refine ⟨by decide, by decide, by decide, by decide⟩

/-! ## C3: register-change detector -/

/-- C3: on a fresh (or reset) detector, `Update` returns the empty change
set and only seeds the snapshot; on a seeded detector it returns exactly
the indices in 0..32 (0-30 registers, 31 SP, 32 PC) at which the record
differs from the snapshot, and then overwrites the snapshot with the
record's values. -/
theorem c3_update_changes (r : RegisterChangeDetector) (current : TraceLine) :
    (r.hasPrev = false →
      detectorUpdate r current = ([], ⟨regSnapshot current, true⟩)) ∧
    (r.hasPrev = true →
      (∀ i : Nat, i ∈ (detectorUpdate r current).1 ↔
        ((i < 31 ∧ regVal current i ≠ r.lastValues.getD i 0) ∨
         (i = 31 ∧ current.sp ≠ r.lastValues.getD 31 0) ∨
         (i = 32 ∧ current.pc ≠ r.lastValues.getD 32 0))) ∧
      (detectorUpdate r current).2 = ⟨regSnapshot current, true⟩) := by
  refine ⟨fun h => by simp [detectorUpdate, h], fun h => ⟨fun i => ?_, rfl⟩⟩
  simp only [detectorUpdate, h, if_true]
  by_cases hsp : current.sp ≠ r.lastValues.getD 31 0 <;>
    by_cases hpc : current.pc ≠ r.lastValues.getD 32 0 <;>
    simp [hsp, hpc, List.mem_append, List.mem_filter, List.mem_range] <;>
    tauto

/-- Witness for C3: first update of a fresh detector returns the empty set;
after seeding with record A, updating with B (differing from A only in x0)
flags exactly index 0; a further update with the unchanged record B returns
the empty set. -/
theorem c3_update_changes_witness :
    (detectorUpdate NewRegisterChangeDetector
      ⟨1, 2, 3, "i", List.replicate 31 0, 6, 7⟩).1 = [] ∧
    (0 ∈ (detectorUpdate
      (detectorUpdate NewRegisterChangeDetector
        ⟨1, 2, 3, "i", List.replicate 31 0, 6, 7⟩).2
      ⟨1, 2, 3, "i", 5 :: List.replicate 30 0, 6, 7⟩).1) ∧
    (detectorUpdate
      (detectorUpdate
        (detectorUpdate NewRegisterChangeDetector
          ⟨1, 2, 3, "i", List.replicate 31 0, 6, 7⟩).2
        ⟨1, 2, 3, "i", 5 :: List.replicate 30 0, 6, 7⟩).2
      ⟨1, 2, 3, "i", 5 :: List.replicate 30 0, 6, 7⟩).1 = [] := by
  refine ⟨?_, ?_, by decide⟩
  · rw [(c3_update_changes NewRegisterChangeDetector _).1 rfl]
  · exact (((c3_update_changes _ _).2 rfl).1 0).mpr (by decide)

/-! ## C4: navigation boundary failures -/

/-- C4: `Next` at the last line, `Prev` at the first line, and `GoTo`
outside `[0, T)` all report failure through the boolean result and leave
the whole store state (cursor included) unchanged; being total functions
they never raise a fault. -/
theorem c4_navigation_boundaries (tm : TraceManager) :
    (tm.currentIndex = tm.totalLines - 1 → Next tm = (false, tm)) ∧
    (tm.currentIndex = 0 → Prev tm = (false, tm)) ∧
    (∀ i : Int, i < 0 ∨ tm.totalLines ≤ i → GoTo tm i = (false, tm)) := by
  refine ⟨fun h => ?_, fun h => ?_, fun i hi => ?_⟩
  · unfold Next; rw [if_neg (by omega)]
  · unfold Prev; rw [if_neg (by omega)]
  · unfold GoTo; rw [if_neg (by omega)]

/-- Witness for C4 on a one-line store: the cursor sits at line `T - 1 = 0`,
so `Next`, `Prev` and an out-of-range `GoTo 5` all fail without mutation. -/
theorem c4_navigation_boundaries_witness :
    Next ⟨[], none, 0, 1, (-1, -1), "t", 2000, false⟩ =
      (false, ⟨[], none, 0, 1, (-1, -1), "t", 2000, false⟩) ∧
    Prev ⟨[], none, 0, 1, (-1, -1), "t", 2000, false⟩ =
      (false, ⟨[], none, 0, 1, (-1, -1), "t", 2000, false⟩) ∧
    GoTo ⟨[], none, 0, 1, (-1, -1), "t", 2000, false⟩ 5 =
      (false, ⟨[], none, 0, 1, (-1, -1), "t", 2000, false⟩) := by
  refine ⟨(c4_navigation_boundaries _).1 (by decide),
    (c4_navigation_boundaries _).2.1 (by decide),
    (c4_navigation_boundaries _).2.2 5 (by decide)⟩

/-! ## C7: GetLine trichotomy -/

/-- C7: on a well-formed store (window `[s, e)` materialized with one slot
per line), `GetLine i` returns the cached slot for `i` inside the window
(`none` there means a parse-failure placeholder, an absent cached record);
returns nil immediately for `i` inside the file but outside the window
(window miss — the asynchronous reload it fires is not part of the
immediate result); and returns nil for `i` outside `[0, T)` (boundary).
The three cases are mutually exclusive by their stated conditions. -/
theorem c7_getline_cases (tm : TraceManager) (i s e : Int)
    (hr : tm.loadedRange = (s, e))
    (hlen : (tm.instructions.length : Int) = e - s)
    (hs : 0 ≤ s) (_hse : s ≤ e) (het : e ≤ tm.totalLines) :
    (s ≤ i ∧ i < e → GetLine tm i = tm.instructions.getD (i - s).toNat none) ∧
    (0 ≤ i ∧ i < tm.totalLines ∧ ¬(s ≤ i ∧ i < e) → GetLine tm i = none) ∧
    (i < 0 ∨ tm.totalLines ≤ i → GetLine tm i = none) := by
  refine ⟨fun h => ?_, fun h => ?_, fun h => ?_⟩
  · unfold GetLine
    rw [hr]
    rw [if_pos (by constructor <;> [omega; constructor <;> [omega; constructor <;> omega]])]
  · unfold GetLine
    rw [hr, if_neg (by omega), if_pos (by omega)]
  · unfold GetLine
    rw [hr, if_neg (by omega), if_neg (by omega)]

/-- Witness for C7: window `[1, 3)` over a five-line file; line 1 is cached
(a record), line 4 is a window miss (nil), line 9 is out of range (nil). -/
theorem c7_getline_cases_witness :
    GetLine ⟨[some ⟨1, 2, 3, "i", List.replicate 31 0, 6, 7⟩, none], none, 1, 5,
        (1, 3), "t", 2000, false⟩ 1 =
      some ⟨1, 2, 3, "i", List.replicate 31 0, 6, 7⟩ ∧
    GetLine ⟨[some ⟨1, 2, 3, "i", List.replicate 31 0, 6, 7⟩, none], none, 1, 5,
        (1, 3), "t", 2000, false⟩ 4 = none ∧
    GetLine ⟨[some ⟨1, 2, 3, "i", List.replicate 31 0, 6, 7⟩, none], none, 1, 5,
        (1, 3), "t", 2000, false⟩ 9 = none := by
  refine ⟨?_, ?_, ?_⟩
  · exact ((c7_getline_cases _ 1 1 3 rfl (by decide) (by decide) (by decide)
      (by decide)).1 (by decide)).trans (by decide)
  · exact (c7_getline_cases _ 4 1 3 rfl (by decide) (by decide) (by decide)
      (by decide)).2.1 (by decide)
  · exact (c7_getline_cases _ 9 1 3 rfl (by decide) (by decide) (by decide)
      (by decide)).2.2 (by decide)

/-! ## C9 and C10: concrete evaluations of the parsing faults -/

/-- C9 (code bug): on the memory-log header `1: (w)(0x7fda1a4210+0x8)`
(the very example in the source comment), `ParseRWLine` gets step, kind and
offset right but returns `Address = "w)(0x7fda1a4210"`: the slice starts at
the FIRST `(` — the one of the `(w)` marker — instead of the address's own
parenthesis, so the address field includes the `w)(` wrapper. -/
theorem c9_address_eval :
    ParseRWLine "1: (w)(0x7fda1a4210+0x8)" =
      .ok ⟨1, "1: (w)(0x7fda1a4210+0x8)", "w", "w)(0x7fda1a4210", "0x8", []⟩ ∧
    ("w)(0x7fda1a4210" : String) ≠ "0x7fda1a4210" := by
  refine ⟨rfl, by decide⟩

/-- C10 (code bug): a 37-field line whose instruction field is the single
character `"` drives the quote-stripping slice to `s[1:0]`, a Go runtime
panic — `ParseLine` neither returns a record nor a parse error there. -/
theorem c10_fault_eval :
    parseLine "1|2|3|\"|0|0|0|0|0|0|0|0|0|0|0|0|0|0|0|0|0|0|0|0|0|0|0|0|0|0|0|0|0|4|5|6|7"
      = LineResult.fault := by
  decide

/-! ## Auxiliary lemmas for the windowed store -/

/-- The window start computed by `LoadWindow` is never negative. -/
theorem loadWindowRange_start_nonneg (c K T : Int) :
    0 ≤ (loadWindowRange c K T).1 := by
  unfold loadWindowRange
  dsimp only
  split_ifs <;> omega

/-- The `[start, end)` range computed by `LoadWindow` matches the spec
formula `start = clamp (c - K/2) 0 (T - K)`, `end = min (start + K) T`,
and satisfies the window invariants. -/
theorem loadWindowRange_spec (c K T : Int) (hK : 0 ≤ K) (hT : 0 ≤ T) :
    (loadWindowRange c K T).1 = max (min (c - K.tdiv 2) (T - K)) 0 ∧
    (loadWindowRange c K T).2 = min ((loadWindowRange c K T).1 + K) T ∧
    0 ≤ (loadWindowRange c K T).1 ∧
    (loadWindowRange c K T).1 ≤ (loadWindowRange c K T).2 ∧
    (loadWindowRange c K T).2 ≤ T ∧
    (loadWindowRange c K T).2 - (loadWindowRange c K T).1 ≤ min K T := by
  unfold loadWindowRange
  dsimp only
  split_ifs <;> refine ⟨?_, ?_, ?_, ?_, ?_, ?_⟩ <;> omega

/-- Spec-side effectful map over `Option`: all elements must map to
`some`, and the results are collected in order. -/
def mapO {α β : Type} (f : α → Option β) : List α → Option (List β)
  | [] => some []
  | x :: xs =>
    match f x, mapO f xs with
    | some b, some bs => some (b :: bs)
    | _, _ => none

/-- If every element maps to `some`, `mapO` succeeds. -/
theorem mapO_isSome_of_all {α β : Type} (f : α → Option β) :
    ∀ xs : List α, (∀ x ∈ xs, f x ≠ none) → ∃ ys, mapO f xs = some ys := by
  intro xs
  induction xs with
  | nil => intro _; exact ⟨[], rfl⟩
  | cons x xs ih =>
    intro h
    obtain ⟨b, hb⟩ := Option.ne_none_iff_exists.mp (h x (List.mem_cons_self _ _))
    obtain ⟨ys, hys⟩ := ih fun y hy => h y (List.mem_cons_of_mem _ hy)
    refine ⟨b :: ys, ?_⟩
    rw [mapO, ← hb, hys]

/-- A successful `mapO` relates input and output pointwise. -/
theorem mapO_forall₂ {α β : Type} (f : α → Option β) :
    ∀ {xs : List α} {ys : List β}, mapO f xs = some ys →
      List.Forall₂ (fun x y => f x = some y) xs ys := by
  intro xs
  induction xs with
  | nil =>
    intro ys h
    rw [mapO] at h
    cases h
    exact List.Forall₂.nil
  | cons x xs ih =>
    intro ys h
    rw [mapO] at h
    cases hx : f x with
    | none => rw [hx] at h; simp at h
    | some b =>
      rw [hx] at h
      cases hxs : mapO f xs with
      | none => rw [hxs] at h; simp at h
      | some bs =>
        rw [hxs] at h
        cases h
        exact List.Forall₂.cons hx (ih hxs)

/-- The scanner loop of `loadFileWindow` collects exactly the file lines
with (0-based) index in `[s, e)`, each sent through `instrOfLine`, starting
the count at `cur`. -/
theorem scanLines_eq (s e : Int) :
    ∀ (file : List String) (cur : Int),
      scanLines s e file cur =
        mapO instrOfLine ((file.drop (s - cur).toNat).take ((e - max s cur).toNat)) := by
  intro file
  induction file with
  | nil => intro cur; simp [scanLines, mapO]
  | cons l rest ih =>
    intro cur
    rw [scanLines]
    by_cases hin : s ≤ cur ∧ cur < e
    · rw [if_pos hin]
      have hd : (s - cur).toNat = 0 := by omega
      have hmax : max s cur = cur := by omega
      have hec : (e - cur).toNat = (e - cur - 1).toNat + 1 := by omega
      rw [hd, hmax, List.drop_zero, hec, List.take_succ_cons]
      cases hio : instrOfLine l with
      | none => rw [mapO, hio]
      | some x =>
        dsimp only
        by_cases hstop : e ≤ cur + 1
        · have h0 : (e - cur - 1).toNat = 0 := by omega
          rw [if_pos hstop, h0, List.take_zero, mapO, hio]
          rfl
        · rw [if_neg hstop, ih (cur + 1)]
          have hd2 : (s - (cur + 1)).toNat = 0 := by omega
          have hm2 : max s (cur + 1) = cur + 1 := by omega
          have he2 : e - (cur + 1) = e - cur - 1 := by omega
          rw [hd2, hm2, he2, List.drop_zero]
          cases hmm : mapO instrOfLine (rest.take (e - cur - 1).toNat) with
          | none => rw [mapO, hio, hmm]; rfl
          | some t => rw [mapO, hio, hmm]; rfl
    · rw [if_neg hin]
      by_cases hstop : e ≤ cur + 1
      · have h0 : (e - max s cur).toNat = 0 := by
          rcases le_total s cur with h | h
          · rw [max_eq_right h]; omega
          · rw [max_eq_left h]; omega
        rw [if_pos hstop, h0, List.take_zero]
        rfl
      · have hcs : cur < s := by omega
        rw [if_neg hstop, ih (cur + 1)]
        have hd2 : (s - cur).toNat = (s - (cur + 1)).toNat + 1 := by omega
        have hm1 : max s cur = s := by omega
        have hm2 : max s (cur + 1) = s := by omega
        rw [hd2, hm1, hm2, List.drop_succ_cons]

/-- A window slot produced by a successful scan is exactly what the line
dictates: the parsed record for a well-formed line, absent otherwise. -/
theorem lineRecord_of_instrOfLine {l : String} {y : Option TraceLine}
    (h : instrOfLine l = some y) : y = lineRecord l := by
  unfold instrOfLine at h
  unfold lineRecord
  cases hpl : parseLine l <;> simp_all

/-- Anatomy of a successful, actually-reloading `LoadWindow` call: the new
window contents come from the scanner over the computed range, which is
recorded as the loaded range; the total line count is untouched. -/
theorem LoadWindow_elim (tm : TraceManager) (file : List String) (c : Int)
    (tm2 : TraceManager)
    (hfn : tm.fileName ≠ "") (hld : tm.isLoading = false)
    (hch : loadWindowRange c tm.windowSize tm.totalLines ≠ tm.loadedRange)
    (hres : LoadWindow tm file c = some tm2) :
    ∃ instrs,
      scanLines (loadWindowRange c tm.windowSize tm.totalLines).1
        (loadWindowRange c tm.windowSize tm.totalLines).2 file 0 = some instrs ∧
      tm2.instructions = instrs ∧
      tm2.loadedRange = loadWindowRange c tm.windowSize tm.totalLines ∧
      tm2.totalLines = tm.totalLines := by
  unfold LoadWindow at hres
  rw [if_neg (by simp [hfn, hld])] at hres
  dsimp only at hres
  rw [if_neg hch] at hres
  unfold loadFileWindow at hres
  cases hscan : scanLines (loadWindowRange c tm.windowSize tm.totalLines).1
      (loadWindowRange c tm.windowSize tm.totalLines).2 file 0 with
  | none => rw [hscan] at hres; simp at hres
  | some instrs =>
    rw [hscan] at hres
    simp only [Option.map_some'] at hres
    cases hres
    exact ⟨instrs, rfl, rfl, Prod.mk.eta, rfl⟩

/-- If the scanner succeeds on the computed range, `LoadWindow` returns a
store (used to build successful-open witnesses). -/
theorem LoadWindow_some (tm : TraceManager) (file : List String) (c : Int)
    (instrs : List (Option TraceLine))
    (hscan : scanLines (loadWindowRange c tm.windowSize tm.totalLines).1
      (loadWindowRange c tm.windowSize tm.totalLines).2 file 0 = some instrs) :
    ∃ tm2, LoadWindow tm file c = some tm2 := by
  unfold LoadWindow
  by_cases h1 : tm.fileName = "" ∨ tm.isLoading
  · rw [if_pos h1]; exact ⟨tm, rfl⟩
  · rw [if_neg h1]
    dsimp only
    by_cases h2 : loadWindowRange c tm.windowSize tm.totalLines = tm.loadedRange
    · rw [if_pos h2]; exact ⟨tm, rfl⟩
    · rw [if_neg h2]
      unfold loadFileWindow
      rw [hscan]
      exact ⟨_, rfl⟩

/-- C5: whenever `LoadWindow` actually reloads (file known, not already
in flight, range changed), the recorded range matches the spec formula
`start = clamp (c - K/2) 0 (T - K)`, `end = min (start + K) T`; the window
invariants `0 ≤ start ≤ end ≤ T` hold, the loaded window holds exactly
`end - start` slots, and its length is at most `min K T`. -/
theorem c5_window_bounds (tm : TraceManager) (file : List String) (c : Int)
    (tm2 : TraceManager)
    (hK : 0 ≤ tm.windowSize) (hT : tm.totalLines = (file.length : Int))
    (hfn : tm.fileName ≠ "") (hld : tm.isLoading = false)
    (hch : loadWindowRange c tm.windowSize tm.totalLines ≠ tm.loadedRange)
    (hres : LoadWindow tm file c = some tm2) :
    tm2.loadedRange = loadWindowRange c tm.windowSize tm.totalLines ∧
    (loadWindowRange c tm.windowSize tm.totalLines).1 =
      max (min (c - tm.windowSize.tdiv 2) (tm.totalLines - tm.windowSize)) 0 ∧
    (loadWindowRange c tm.windowSize tm.totalLines).2 =
      min ((loadWindowRange c tm.windowSize tm.totalLines).1 + tm.windowSize)
        tm.totalLines ∧
    0 ≤ (loadWindowRange c tm.windowSize tm.totalLines).1 ∧
    (loadWindowRange c tm.windowSize tm.totalLines).1 ≤
      (loadWindowRange c tm.windowSize tm.totalLines).2 ∧
    (loadWindowRange c tm.windowSize tm.totalLines).2 ≤ tm.totalLines ∧
    (tm2.instructions.length : Int) =
      (loadWindowRange c tm.windowSize tm.totalLines).2 -
        (loadWindowRange c tm.windowSize tm.totalLines).1 ∧
    (tm2.instructions.length : Int) ≤ min tm.windowSize tm.totalLines := by
  have hTnn : 0 ≤ tm.totalLines := by rw [hT]; exact Int.natCast_nonneg _
  obtain ⟨hs1, hs2, hs3, hs4, hs5, hs6⟩ :=
    loadWindowRange_spec c tm.windowSize tm.totalLines hK hTnn
  obtain ⟨instrs, hscan, hi, hr, htot⟩ :=
    LoadWindow_elim tm file c tm2 hfn hld hch hres
  rw [scanLines_eq, Int.sub_zero,
    max_eq_left (loadWindowRange_start_nonneg c tm.windowSize tm.totalLines)] at hscan
  have hlen : instrs.length =
      ((file.drop (loadWindowRange c tm.windowSize tm.totalLines).1.toNat).take
        ((loadWindowRange c tm.windowSize tm.totalLines).2 -
          (loadWindowRange c tm.windowSize tm.totalLines).1).toNat).length :=
    (List.Forall₂.length_eq (mapO_forall₂ _ hscan)).symm
  rw [List.length_take, List.length_drop] at hlen
  have hmin : ((loadWindowRange c tm.windowSize tm.totalLines).2 -
      (loadWindowRange c tm.windowSize tm.totalLines).1).toNat ≤
      file.length - (loadWindowRange c tm.windowSize tm.totalLines).1.toNat := by
    omega
  rw [Nat.min_eq_left hmin] at hlen
  refine ⟨hr, hs1, hs2, hs3, hs4, hs5, ?_, ?_⟩ <;> rw [hi] <;> omega

/-- Witness for C5: a three-line file with window size 4: the reload
centered on 0 records the clamped range `loadWindowRange 0 4 3 = (0, 3)`
and materializes `3 = end - start` slots. -/
theorem c5_window_bounds_witness :
    (⟨List.replicate 3 none, none, 0, 3, (0, 3), "t", 4, false⟩ :
        TraceManager).loadedRange = loadWindowRange 0 4 3 ∧
    (((⟨List.replicate 3 none, none, 0, 3, (0, 3), "t", 4, false⟩ :
        TraceManager).instructions.length : Int) =
      (loadWindowRange 0 4 3).2 - (loadWindowRange 0 4 3).1) := by
  have h := c5_window_bounds ⟨[], none, 0, 3, (-1, -1), "t", 4, false⟩
    ["a", "b", "c"] 0 ⟨List.replicate 3 none, none, 0, 3, (0, 3), "t", 4, false⟩
    (by decide) (by decide) (by decide) (by decide) (by decide) (by decide)
  exact ⟨h.1, h.2.2.2.2.2.2.1⟩

/-- With no faulting line, every line is counted either as well-formed or
as malformed. -/
theorem count_ok_fail {file : List String}
    (h : ∀ l ∈ file, parseLine l ≠ LineResult.fault) :
    (file.filter isOkB).length + (file.filter isFailB).length = file.length := by
  induction file with
  | nil => rfl
  | cons l rest ih =>
    have hrest := ih fun x hx => h x (List.mem_cons_of_mem _ hx)
    have hl := h l (List.mem_cons_self _ _)
    cases hpl : parseLine l with
    | ok t =>
      have hok : isOkB l = true := by unfold isOkB; rw [hpl]
      have hfl : isFailB l = false := by unfold isFailB; rw [hpl]
      simp only [List.filter_cons, hok, hfl, if_true, if_false, Bool.false_eq_true,
        List.length_cons]
      omega
    | fail e =>
      have hok : isOkB l = false := by unfold isOkB; rw [hpl]
      have hfl : isFailB l = true := by unfold isFailB; rw [hpl]
      simp only [List.filter_cons, hok, hfl, if_true, if_false, Bool.false_eq_true,
        List.length_cons]
      omega
    | fault => exact absurd hpl hl

/-- C6: for a file whose every line either parses or fails with a reported
error (the well-formed/malformed dichotomy; N and M are the two counts):
N + M counts every physical line; opening the file succeeds — no malformed
line aborts the scan — with `Total() = N + M`; the initially loaded window
holds exactly the parsed records of its well-formed lines and absent
placeholders for its malformed ones; and the same holds of the window
contents after any successful reload. -/
theorem c6_robust_open (file : List String) (fname : String) (hfn : fname ≠ "")
    (hnofault : ∀ l ∈ file, parseLine l ≠ LineResult.fault) :
    ((file.filter isOkB).length + (file.filter isFailB).length = file.length) ∧
    (∃ tm2, ReadTraceFile file fname NewTraceManager = some tm2 ∧
      tm2.totalLines =
        (((file.filter isOkB).length + (file.filter isFailB).length : Nat) : Int) ∧
      List.Forall₂ (fun l slot => slot = lineRecord l)
        ((file.drop (loadWindowRange 0 2000 (file.length : Int)).1.toNat).take
          ((loadWindowRange 0 2000 (file.length : Int)).2 -
            (loadWindowRange 0 2000 (file.length : Int)).1).toNat)
        tm2.instructions) ∧
    (∀ (tm : TraceManager) (c : Int) (tm2 : TraceManager),
      tm.fileName ≠ "" → tm.isLoading = false →
      loadWindowRange c tm.windowSize tm.totalLines ≠ tm.loadedRange →
      LoadWindow tm file c = some tm2 →
      List.Forall₂ (fun l slot => slot = lineRecord l)
        ((file.drop (loadWindowRange c tm.windowSize tm.totalLines).1.toNat).take
          ((loadWindowRange c tm.windowSize tm.totalLines).2 -
            (loadWindowRange c tm.windowSize tm.totalLines).1).toNat)
        tm2.instructions) := by
  have content : ∀ (tm : TraceManager) (c : Int) (tm2 : TraceManager),
      tm.fileName ≠ "" → tm.isLoading = false →
      loadWindowRange c tm.windowSize tm.totalLines ≠ tm.loadedRange →
      LoadWindow tm file c = some tm2 →
      List.Forall₂ (fun l slot => slot = lineRecord l)
        ((file.drop (loadWindowRange c tm.windowSize tm.totalLines).1.toNat).take
          ((loadWindowRange c tm.windowSize tm.totalLines).2 -
            (loadWindowRange c tm.windowSize tm.totalLines).1).toNat)
        tm2.instructions := by
    intro tm c tm2 hfn' hld' hch' hres'
    obtain ⟨instrs, hscan, hi, _hr, _htot⟩ :=
      LoadWindow_elim tm file c tm2 hfn' hld' hch' hres'
    rw [scanLines_eq, Int.sub_zero,
      max_eq_left (loadWindowRange_start_nonneg c tm.windowSize tm.totalLines)] at hscan
    rw [hi]
    exact (mapO_forall₂ _ hscan).imp fun a b h => lineRecord_of_instrOfLine h
  refine ⟨count_ok_fail hnofault, ?_, content⟩
  have hnosome : ∀ l ∈ (file.drop
      (loadWindowRange 0 2000 (file.length : Int)).1.toNat).take
      ((loadWindowRange 0 2000 (file.length : Int)).2 -
        (loadWindowRange 0 2000 (file.length : Int)).1).toNat,
      instrOfLine l ≠ none := by
    intro l hmem
    have hmf : l ∈ file := List.mem_of_mem_drop (List.mem_of_mem_take hmem)
    have := hnofault l hmf
    unfold instrOfLine
    cases hpl : parseLine l <;> simp_all
  obtain ⟨instrs, hscan⟩ := mapO_isSome_of_all instrOfLine _ hnosome
  have hscan' : scanLines (loadWindowRange 0 2000 (file.length : Int)).1
      (loadWindowRange 0 2000 (file.length : Int)).2 file 0 = some instrs := by
    rw [scanLines_eq, Int.sub_zero,
      max_eq_left (loadWindowRange_start_nonneg 0 2000 (file.length : Int))]
    exact hscan
  have hch0 : loadWindowRange 0 2000 (file.length : Int) ≠ ((-1 : Int), (-1 : Int)) := by
    intro hcontra
    have := loadWindowRange_start_nonneg 0 2000 (file.length : Int)
    rw [hcontra] at this
    omega
  have hsome : ∃ t2, ReadTraceFile file fname NewTraceManager = some t2 :=
    LoadWindow_some
      { NewTraceManager with totalLines := (file.length : Int), fileName := fname }
      file 0 instrs hscan'
  obtain ⟨tm2, hread⟩ := hsome
  have hread2 : LoadWindow
      { NewTraceManager with totalLines := (file.length : Int), fileName := fname }
      file 0 = some tm2 := hread
  refine ⟨tm2, hread, ?_, ?_⟩
  · obtain ⟨instrs2, _hscan2, _hi2, _hr2, htot2⟩ :=
      LoadWindow_elim
        { NewTraceManager with totalLines := (file.length : Int), fileName := fname }
        file 0 tm2 (by simpa using hfn) (by rfl) (by exact hch0) hread2
    rw [htot2, count_ok_fail hnofault]
  · exact content
      { NewTraceManager with totalLines := (file.length : Int), fileName := fname }
      0 tm2 (by simpa using hfn) (by rfl) (by exact hch0) hread2

/-- Witness for C6: a file with one well-formed and one malformed line has
N + M = 2 lines in total and opens successfully. -/
theorem c6_robust_open_witness :
    ((["1|2|3|i|0|0|0|0|0|0|0|0|0|0|0|0|0|0|0|0|0|0|0|0|0|0|0|0|0|0|0|0|0|4|5|6|7",
        "x"] : List String).filter isOkB).length +
      ((["1|2|3|i|0|0|0|0|0|0|0|0|0|0|0|0|0|0|0|0|0|0|0|0|0|0|0|0|0|0|0|0|0|4|5|6|7",
        "x"] : List String).filter isFailB).length =
      (["1|2|3|i|0|0|0|0|0|0|0|0|0|0|0|0|0|0|0|0|0|0|0|0|0|0|0|0|0|0|0|0|0|4|5|6|7",
        "x"] : List String).length ∧
    (ReadTraceFile
      ["1|2|3|i|0|0|0|0|0|0|0|0|0|0|0|0|0|0|0|0|0|0|0|0|0|0|0|0|0|0|0|0|0|4|5|6|7",
        "x"] "t" NewTraceManager).isSome = true := by
  have h := c6_robust_open
    ["1|2|3|i|0|0|0|0|0|0|0|0|0|0|0|0|0|0|0|0|0|0|0|0|0|0|0|0|0|0|0|0|0|4|5|6|7",
      "x"] "t" (by decide) (by decide)
  refine ⟨h.1, ?_⟩
  obtain ⟨tm2, hread, -, -⟩ := h.2.1
  rw [hread]
  rfl

/-! ## Correctness of the `strconv.ParseUint` model on written numerals -/

/-- Unpack a `isNumeralB` hypothesis. -/
theorem isNumeralB_elim {b : Nat} {cs : List Char} {v : Nat}
    (h : isNumeralB b cs v = true) : cs ≠ [] ∧ numFrom? b cs 0 = some v := by
  unfold isNumeralB at h
  rw [Bool.and_eq_true] at h
  obtain ⟨h1, h2⟩ := h
  refine ⟨fun hc => ?_, eq_of_beq h2⟩
  subst hc
  simp at h1

/-- The numeral value only grows along the digit fold. -/
theorem numFrom?_le (b : Nat) (hb : 1 ≤ b) :
    ∀ (cs : List Char) (acc v : Nat), numFrom? b cs acc = some v → acc ≤ v := by
  intro cs
  induction cs with
  | nil => intro acc v h; rw [numFrom?] at h; cases h; exact Nat.le_refl _
  | cons c cs ih =>
    intro acc v h
    rw [numFrom?] at h
    cases hd : digitVal c with
    | none => rw [hd] at h; simp at h
    | some d =>
      rw [hd] at h
      dsimp only at h
      by_cases hdb : d < b
      · rw [if_pos hdb] at h
        have h2 := ih (acc * b + d) v h
        have h3 : acc * 1 ≤ acc * b := Nat.mul_le_mul_left acc hb
        rw [Nat.mul_one] at h3
        omega
      · rw [if_neg hdb] at h; simp at h

/-- The accumulation loop of the `ParseUint` model computes the numeral
value whenever that value fits under `maxVal` (no underscores seen). -/
theorem parseLoop_of_numFrom (b maxVal : Nat) (base0 : Bool) (hb : 1 ≤ b) :
    ∀ (cs : List Char) (acc v : Nat), numFrom? b cs acc = some v → v ≤ maxVal →
      parseLoop b maxVal base0 cs acc false = some (v, false) := by
  intro cs
  induction cs with
  | nil => intro acc v h hv; rw [numFrom?] at h; cases h; rfl
  | cons c cs ih =>
    intro acc v h hv
    rw [numFrom?] at h
    cases hd : digitVal c with
    | none => rw [hd] at h; simp at h
    | some d =>
      rw [hd] at h
      dsimp only at h
      by_cases hdb : d < b
      · rw [if_pos hdb] at h
        have hle : acc * b + d ≤ v := numFrom?_le b hb cs (acc * b + d) v h
        rw [parseLoop]
        have hnu : ¬(base0 = true ∧ c = '_') := by
          rintro ⟨-, rfl⟩
          rw [show digitVal '_' = none from by decide] at hd
          simp at hd
        rw [if_neg hnu, hd]
        dsimp only
        rw [if_neg (show ¬ b ≤ d by omega),
          if_neg (show ¬ maxVal < acc * b + d by omega)]
        exact ih (acc * b + d) v h hv
      · rw [if_neg hdb] at h; simp at h

/-- `ParseUint` with explicit base 16 and 32 bits (the step field) reads
back any hexadecimal numeral whose value fits in 32 bits. -/
theorem goParseUintL_hex16 (cs : List Char) (v : Nat)
    (h : isNumeralB 16 cs v = true) (hv : v < 2 ^ 32) :
    goParseUintL cs 16 32 = some v := by
  obtain ⟨hne, hnum⟩ := isNumeralB_elim h
  unfold goParseUintL
  rw [if_neg hne, if_neg (by omega), if_pos (by omega : 2 ≤ 16 ∧ 16 ≤ 36)]
  dsimp only
  rw [if_neg (by omega : ¬(32 = 0)),
    parseLoop_of_numFrom 16 (2 ^ 32 - 1) _ (by omega) cs 0 v hnum (by omega)]
  dsimp only
  rw [if_neg (by simp)]

/-- `ParseUint` with base 0 and 64 bits (address-like fields) reads back
any `0x`-prefixed-hexadecimal or decimal numeral fitting in 64 bits. -/
theorem goParseUintL_goNum (cs : List Char) (v : Nat)
    (h : isGoNumB cs v = true) (hv : v < 2 ^ 64) :
    goParseUintL cs 0 64 = some v := by
  unfold isGoNumB at h
  rw [Bool.or_eq_true] at h
  rcases h with h | h
  · unfold isHex0xB at h
    cases cs with
    | nil => simp at h
    | cons c0 rest =>
      cases rest with
      | nil => simp at h
      | cons c1 ds =>
        dsimp only at h
        rw [Bool.and_eq_true, Bool.and_eq_true] at h
        obtain ⟨⟨hc0, hcx⟩, hnum⟩ := h
        have hc0' : c0 = '0' := eq_of_beq hc0
        have hcx' : lower c1 = 'x' := eq_of_beq hcx
        subst hc0'
        obtain ⟨hne, hnum'⟩ := isNumeralB_elim hnum
        unfold goParseUintL
        rw [if_neg (by simp), if_neg (by omega),
          if_neg (by omega : ¬(2 ≤ 0 ∧ 0 ≤ 36)), if_pos rfl]
        have hrs : radixSplit ('0' :: c1 :: ds) = (16, ds) := by
          unfold radixSplit
          dsimp only
          rw [if_pos rfl]
          rw [if_neg (by rintro ⟨-, hb⟩; rw [hcx'] at hb; exact absurd hb (by decide)),
            if_neg (by rintro ⟨-, hb⟩; rw [hcx'] at hb; exact absurd hb (by decide)),
            if_pos ⟨hne, hcx'⟩]
        rw [hrs]
        dsimp only
        rw [if_neg (by omega : ¬(64 = 0)),
          parseLoop_of_numFrom 16 (2 ^ 64 - 1) _ (by omega) ds 0 v hnum' (by omega)]
        dsimp only
        rw [if_neg (by simp)]
  · rw [Bool.and_eq_true] at h
    obtain ⟨hnum, hz⟩ := h
    obtain ⟨hne, hnum'⟩ := isNumeralB_elim hnum
    rw [Bool.or_eq_true] at hz
    cases cs with
    | nil => exact absurd rfl hne
    | cons c0 rest =>
      by_cases hc0 : c0 = '0'
      · subst hc0
        have hcs : rest = [] := by
          rcases hz with hz | hz
          · simp at hz
          · simpa using eq_of_beq hz
        subst hcs
        have hv0 : v = 0 := by
          rw [show numFrom? 10 ['0'] 0 = some 0 from by decide] at hnum'
          exact (Option.some.inj hnum').symm
        subst hv0
        decide
      · unfold goParseUintL
        rw [if_neg (by simp), if_neg (by omega),
          if_neg (by omega : ¬(2 ≤ 0 ∧ 0 ≤ 36)), if_pos rfl]
        have hrs : radixSplit (c0 :: rest) = (10, c0 :: rest) := by
          unfold radixSplit
          dsimp only
          rw [if_neg hc0]
        rw [hrs]
        dsimp only
        rw [if_neg (by omega : ¬(64 = 0)),
          parseLoop_of_numFrom 10 (2 ^ 64 - 1) _ (by omega) _ 0 v hnum' (by omega)]
        dsimp only
        rw [if_neg (by simp)]

/-! ## Field-level lemmas for `ParseLine` -/

/-- A numeric field written as a Go numeral parses to its value. -/
theorem parseNumF_ok (fields : List (List Char)) (k : Nat) (name : String) (v : Nat)
    (h : isGoNumB (goTrim (fields.getD k [])) v = true) (hv : v < 2 ^ 64) :
    parseNumF fields k name = .ok v := by
  unfold parseNumF
  rw [goParseUintL_goNum _ _ h hv]

/-- A successful numeric field means the underlying parse succeeded. -/
theorem parseNumF_ok_inv {fields : List (List Char)} {k : Nat} {name : String}
    {v : Nat} (h : parseNumF fields k name = .ok v) :
    goParseUintL (goTrim (fields.getD k [])) 0 64 = some v := by
  unfold parseNumF at h
  cases hg : goParseUintL (goTrim (fields.getD k [])) 0 64 with
  | none => rw [hg] at h; simp at h
  | some w => rw [hg] at h; dsimp only at h; cases h; rfl

/-- A failing numeric field reports exactly the field name and the trimmed
offending value. -/
theorem parseNumF_err {fields : List (List Char)} {k : Nat} {name : String}
    {e : ParseErr} (h : parseNumF fields k name = .error e) :
    goParseUintL (goTrim (fields.getD k [])) 0 64 = none ∧
      e = .fieldErr name ⟨goTrim (fields.getD k [])⟩ := by
  unfold parseNumF at h
  cases hg : goParseUintL (goTrim (fields.getD k [])) 0 64 with
  | none => rw [hg] at h; dsimp only at h; cases h; exact ⟨rfl, rfl⟩
  | some w => rw [hg] at h; simp at h

/-- The x0..x28 loop succeeds on fields written as Go numerals. -/
theorem regsList_ok (fields : List (List Char)) (f : Nat → Nat) :
    ∀ is : List Nat,
      (∀ i ∈ is, parseNumF fields (4 + i) ("x" ++ toString i) = .ok (f i)) →
      parseRegsList fields is = .ok (is.map f) := by
  intro is
  induction is with
  | nil => intro _; rfl
  | cons i is ih =>
    intro h
    rw [parseRegsList, h i (List.mem_cons_self _ _),
      ih (fun j hj => h j (List.mem_cons_of_mem _ hj))]
    rfl

/-- A successful x0..x28 loop means every register field parsed. -/
theorem regsList_ok_all (fields : List (List Char)) :
    ∀ (is : List Nat) (vs : List Nat), parseRegsList fields is = .ok vs →
      ∀ i ∈ is, ∃ v, goParseUintL (goTrim (fields.getD (4 + i) [])) 0 64 = some v := by
  intro is
  induction is with
  | nil => intro vs h i hi; simp at hi
  | cons j is ih =>
    intro vs h i hi
    rw [parseRegsList] at h
    cases hp : parseNumF fields (4 + j) ("x" ++ toString j) with
    | error e => rw [hp] at h; simp at h
    | ok v =>
      rw [hp] at h
      dsimp only at h
      cases hr : parseRegsList fields is with
      | error e => rw [hr] at h; simp at h
      | ok vs2 =>
        rcases List.mem_cons.mp hi with rfl | hi2
        · exact ⟨v, parseNumF_ok_inv hp⟩
        · exact ih vs2 hr i hi2

/-- A failing x0..x28 loop reports a register field that failed to parse,
with its name and trimmed value. -/
theorem regsList_err (fields : List (List Char)) :
    ∀ (is : List Nat) (e : ParseErr), parseRegsList fields is = .error e →
      ∃ i ∈ is, goParseUintL (goTrim (fields.getD (4 + i) [])) 0 64 = none ∧
        e = .fieldErr ("x" ++ toString i) ⟨goTrim (fields.getD (4 + i) [])⟩ := by
  intro is
  induction is with
  | nil => intro e h; rw [parseRegsList] at h; simp at h
  | cons j is ih =>
    intro e h
    rw [parseRegsList] at h
    cases hp : parseNumF fields (4 + j) ("x" ++ toString j) with
    | error e2 =>
      rw [hp] at h
      dsimp only at h
      cases h
      obtain ⟨hg, he⟩ := parseNumF_err hp
      exact ⟨j, List.mem_cons_self _ _, hg, he⟩
    | ok v =>
      rw [hp] at h
      dsimp only at h
      cases hr : parseRegsList fields is with
      | error e2 =>
        rw [hr] at h
        dsimp only at h
        cases h
        obtain ⟨i, hi, hg, he⟩ := ih _ hr
        exact ⟨i, List.mem_cons_of_mem _ hi, hg, he⟩
      | ok vs => rw [hr] at h; simp at h

/-- Quote-stripping only panics on the lone-quote field. -/
theorem stripQuotes_ne_none {cs : List Char} (h : cs ≠ ['"']) :
    stripQuotes cs ≠ none := by
  unfold stripQuotes
  by_cases h1 : hasPre ['"'] cs ∧ hasSuf ['"'] cs
  · rw [if_pos h1]
    by_cases h2 : cs.length < 2
    · exfalso
      obtain ⟨hp, -⟩ := h1
      cases cs with
      | nil => simp [hasPre] at hp
      | cons c rest =>
        have hrest : rest = [] := by
          rw [List.length_cons] at h2
          exact List.length_eq_zero.mp (by omega)
        subst hrest
        simp [hasPre] at hp
        exact h (by rw [hp])
    · rw [if_neg h2]; simp
  · rw [if_neg h1]; simp

/-- Rebuild a list of known length from its `getD` values. -/
theorem list_eq_range_map (l : List Nat) (n : Nat) (h : l.length = n) :
    l = (List.range n).map (fun i => l.getD i 0) := by
  induction l generalizing n with
  | nil => subst h; rfl
  | cons x xs ih =>
    subst h
    rw [List.length_cons, List.range_succ_eq_map, List.map_cons, List.map_map]
    congr 1
    have h2 := ih xs.length rfl
    nth_rewrite 1 [h2]
    apply List.map_congr_left
    intro i _
    rfl

/-! ## C1: round-trip of well-formed trace lines -/

/-- C1: on a line splitting into exactly 37 `|`-fields whose numeric slots
are written numerals — field 0 a base-16 numeral fitting 32 bits; fields
1, 2, 4..36 `0x`-prefixed-hex or decimal numerals fitting 64 bits (fields
4..32 = x0..x28, 33/34 = x29/x30, 35 = SP, 36 = PC) — and whose
instruction field strips without faulting, `ParseLine` returns a record
carrying exactly the written values in the corresponding fields. -/
theorem c1_parseline_roundtrip (line : String) (step addr offset sp pc : Nat)
    (regs : List Nat) (ins : List Char)
    (hlen : (splitOnChar '|' line.data).length = 37)
    (hstep : isNumeralB 16 (goTrim ((splitOnChar '|' line.data).getD 0 [])) step = true)
    (hstep32 : step < 2 ^ 32)
    (haddr : isGoNumB (goTrim ((splitOnChar '|' line.data).getD 1 [])) addr = true)
    (haddr64 : addr < 2 ^ 64)
    (hoff : isGoNumB (goTrim ((splitOnChar '|' line.data).getD 2 [])) offset = true)
    (hoff64 : offset < 2 ^ 64)
    (hins : stripQuotes (goTrim ((splitOnChar '|' line.data).getD 3 [])) = some ins)
    (hregs : regs.length = 31)
    (hr : ∀ i, i < 31 →
      isGoNumB (goTrim ((splitOnChar '|' line.data).getD (4 + i) []))
          (regs.getD i 0) = true ∧
        regs.getD i 0 < 2 ^ 64)
    (hsp : isGoNumB (goTrim ((splitOnChar '|' line.data).getD 35 [])) sp = true)
    (hsp64 : sp < 2 ^ 64)
    (hpc : isGoNumB (goTrim ((splitOnChar '|' line.data).getD 36 [])) pc = true)
    (hpc64 : pc < 2 ^ 64) :
    parseLine line = .ok ⟨step, addr, offset, ⟨ins⟩, regs, sp, pc⟩ := by
  have h0 := goParseUintL_hex16 _ _ hstep hstep32
  have h1 := goParseUintL_goNum _ _ haddr haddr64
  have h2 := goParseUintL_goNum _ _ hoff hoff64
  have hregsList : parseRegsList (splitOnChar '|' line.data) (List.range 29) =
      .ok ((List.range 29).map (fun i => regs.getD i 0)) :=
    regsList_ok _ _ _ (fun i hi =>
      parseNumF_ok _ _ _ _
        (hr i (by have := List.mem_range.mp hi; omega)).1
        (hr i (by have := List.mem_range.mp hi; omega)).2)
  have h33 : parseNumF (splitOnChar '|' line.data) 33 "x29" = .ok (regs.getD 29 0) :=
    parseNumF_ok _ _ _ _ (hr 29 (by omega)).1 (hr 29 (by omega)).2
  have h34 : parseNumF (splitOnChar '|' line.data) 34 "x30" = .ok (regs.getD 30 0) :=
    parseNumF_ok _ _ _ _ (hr 30 (by omega)).1 (hr 30 (by omega)).2
  have h35 : parseNumF (splitOnChar '|' line.data) 35 "sp" = .ok sp :=
    parseNumF_ok _ _ _ _ hsp hsp64
  have h36 : parseNumF (splitOnChar '|' line.data) 36 "pc" = .ok pc :=
    parseNumF_ok _ _ _ _ hpc hpc64
  unfold parseLine parseLineFields
  rw [if_neg (by simp [hlen])]
  rw [h0]
  dsimp only
  rw [h1]
  dsimp only
  rw [h2]
  dsimp only
  rw [hins]
  dsimp only
  rw [hregsList]
  dsimp only
  rw [h33]
  dsimp only
  rw [h34]
  dsimp only
  rw [h35]
  dsimp only
  rw [h36]
  dsimp only
  have hcat : (List.range 29).map (fun i => regs.getD i 0) ++
      [regs.getD 29 0, regs.getD 30 0] = regs := by
    conv_rhs => rw [list_eq_range_map regs 31 hregs]
    rw [show List.range 31 = List.range 29 ++ [29, 30] from by decide, List.map_append]
    rfl
  rw [hcat]

/-- Witness for C1: a concrete well-formed 37-field line round-trips into
the record with the written step, address, offset, registers, SP and PC. -/
theorem c1_parseline_roundtrip_witness :
    parseLine
        "1|2|3|i|0|0|0|0|0|0|0|0|0|0|0|0|0|0|0|0|0|0|0|0|0|0|0|0|0|0|0|0|0|4|5|6|7"
      = .ok ⟨1, 2, 3, "i", List.replicate 29 0 ++ [4, 5], 6, 7⟩ :=
  c1_parseline_roundtrip
    "1|2|3|i|0|0|0|0|0|0|0|0|0|0|0|0|0|0|0|0|0|0|0|0|0|0|0|0|0|0|0|0|0|4|5|6|7"
    1 2 3 6 7 (List.replicate 29 0 ++ [4, 5]) "i".data
    (by decide) (by decide) (by decide) (by decide) (by decide) (by decide)
    (by decide) (by decide) (by decide) (by decide) (by decide) (by decide)
    (by decide) (by decide)

/-! ## C8: the error taxonomy of `ParseLine` -/

/-- Base passed by `ParseLine` for numeric field `k` (16 for the step). -/
def numFieldBase (k : Nat) : Nat := if k = 0 then 16 else 0

/-- Bit size passed by `ParseLine` for numeric field `k` (32 for the step). -/
def numFieldBits (k : Nat) : Nat := if k = 0 then 32 else 64

/-- The name under which `ParseLine` reports numeric field `k`. -/
def numFieldName (k : Nat) : String :=
  if k = 0 then "step" else if k = 1 then "addr" else if k = 2 then "offset"
  else if k = 33 then "x29" else if k = 34 then "x30" else if k = 35 then "sp"
  else if k = 36 then "pc" else "x" ++ toString (k - 4)

/-- The indices of the numeric fields of a trace line: 0-2, 4..32, 33-36
(field 3 is the instruction text). -/
def numFieldIdxs : List Nat :=
  [0, 1, 2] ++ (List.range 29).map (fun i => 4 + i) ++ [33, 34, 35, 36]

/-- Trichotomy of `ParseLine` on a 37-field line: a numeric field fails and
the result is the matching field-specific error; or the quote-stripping
faults; or every numeric field parses and a record is returned. -/
theorem parseLineFields_master (fields : List (List Char)) (hlen : fields.length = 37) :
    (∃ k, k ∈ numFieldIdxs ∧
        goParseUintL (goTrim (fields.getD k [])) (numFieldBase k) (numFieldBits k)
          = none ∧
        parseLineFields fields =
          .fail (.fieldErr (numFieldName k) ⟨goTrim (fields.getD k [])⟩)) ∨
    (stripQuotes (goTrim (fields.getD 3 [])) = none ∧
      parseLineFields fields = .fault) ∨
    ((∀ k ∈ numFieldIdxs,
        (goParseUintL (goTrim (fields.getD k []))
          (numFieldBase k) (numFieldBits k)).isSome = true) ∧
      ∃ t, parseLineFields fields = .ok t) := by
  cases h0 : goParseUintL (goTrim (fields.getD 0 [])) 16 32 with
  | none =>
    left
    refine ⟨0, by decide, h0, ?_⟩
    unfold parseLineFields
    rw [if_neg (by simp [hlen]), h0]
    rfl
  | some v0 =>
  cases h1 : goParseUintL (goTrim (fields.getD 1 [])) 0 64 with
  | none =>
    left
    refine ⟨1, by decide, h1, ?_⟩
    unfold parseLineFields
    rw [if_neg (by simp [hlen]), h0]
    dsimp only
    rw [h1]
    rfl
  | some v1 =>
  cases h2 : goParseUintL (goTrim (fields.getD 2 [])) 0 64 with
  | none =>
    left
    refine ⟨2, by decide, h2, ?_⟩
    unfold parseLineFields
    rw [if_neg (by simp [hlen]), h0]
    dsimp only
    rw [h1]
    dsimp only
    rw [h2]
    rfl
  | some v2 =>
  cases hq : stripQuotes (goTrim (fields.getD 3 [])) with
  | none =>
    right; left
    refine ⟨rfl, ?_⟩
    unfold parseLineFields
    rw [if_neg (by simp [hlen]), h0]
    dsimp only
    rw [h1]
    dsimp only
    rw [h2]
    dsimp only
    rw [hq]
  | some ins =>
  cases hre : parseRegsList fields (List.range 29) with
  | error e =>
    left
    obtain ⟨i, hi, hbad, he⟩ := regsList_err fields (List.range 29) e hre
    have hi29 : i < 29 := List.mem_range.mp hi
    refine ⟨4 + i, ?_, ?_, ?_⟩
    · unfold numFieldIdxs
      rw [List.mem_append, List.mem_append]
      exact Or.inl (Or.inr (List.mem_map_of_mem _ hi))
    · rw [show numFieldBase (4 + i) = 0 from by unfold numFieldBase; rw [if_neg (by omega)],
        show numFieldBits (4 + i) = 64 from by unfold numFieldBits; rw [if_neg (by omega)]]
      exact hbad
    · have hn : numFieldName (4 + i) = "x" ++ toString i := by
        unfold numFieldName
        rw [if_neg (by omega), if_neg (by omega), if_neg (by omega), if_neg (by omega),
          if_neg (by omega), if_neg (by omega), if_neg (by omega),
          show 4 + i - 4 = i from by omega]
      unfold parseLineFields
      rw [if_neg (by simp [hlen]), h0]
      dsimp only
      rw [h1]
      dsimp only
      rw [h2]
      dsimp only
      rw [hq]
      dsimp only
      rw [hre]
      dsimp only
      rw [he, hn]
  | ok xs =>
  cases h33 : parseNumF fields 33 "x29" with
  | error e =>
    left
    obtain ⟨hbad, he⟩ := parseNumF_err h33
    refine ⟨33, by decide, hbad, ?_⟩
    unfold parseLineFields
    rw [if_neg (by simp [hlen]), h0]
    dsimp only
    rw [h1]
    dsimp only
    rw [h2]
    dsimp only
    rw [hq]
    dsimp only
    rw [hre]
    dsimp only
    rw [h33]
    dsimp only
    rw [he]
    rfl
  | ok v29 =>
  cases h34 : parseNumF fields 34 "x30" with
  | error e =>
    left
    obtain ⟨hbad, he⟩ := parseNumF_err h34
    refine ⟨34, by decide, hbad, ?_⟩
    unfold parseLineFields
    rw [if_neg (by simp [hlen]), h0]
    dsimp only
    rw [h1]
    dsimp only
    rw [h2]
    dsimp only
    rw [hq]
    dsimp only
    rw [hre]
    dsimp only
    rw [h33]
    dsimp only
    rw [h34]
    dsimp only
    rw [he]
    rfl
  | ok v30 =>
  cases h35 : parseNumF fields 35 "sp" with
  | error e =>
    left
    obtain ⟨hbad, he⟩ := parseNumF_err h35
    refine ⟨35, by decide, hbad, ?_⟩
    unfold parseLineFields
    rw [if_neg (by simp [hlen]), h0]
    dsimp only
    rw [h1]
    dsimp only
    rw [h2]
    dsimp only
    rw [hq]
    dsimp only
    rw [hre]
    dsimp only
    rw [h33]
    dsimp only
    rw [h34]
    dsimp only
    rw [h35]
    dsimp only
    rw [he]
    rfl
  | ok vsp =>
  cases h36 : parseNumF fields 36 "pc" with
  | error e =>
    left
    obtain ⟨hbad, he⟩ := parseNumF_err h36
    refine ⟨36, by decide, hbad, ?_⟩
    unfold parseLineFields
    rw [if_neg (by simp [hlen]), h0]
    dsimp only
    rw [h1]
    dsimp only
    rw [h2]
    dsimp only
    rw [hq]
    dsimp only
    rw [hre]
    dsimp only
    rw [h33]
    dsimp only
    rw [h34]
    dsimp only
    rw [h35]
    dsimp only
    rw [h36]
    dsimp only
    rw [he]
    rfl
  | ok vpc =>
    right; right
    constructor
    · intro k hk
      unfold numFieldIdxs at hk
      rw [List.mem_append, List.mem_append] at hk
      rcases hk with (hk | hk) | hk
      · have h3 : k = 0 ∨ k = 1 ∨ k = 2 := by simpa using hk
        rcases h3 with rfl | rfl | rfl
        · rw [show numFieldBase 0 = 16 from rfl, show numFieldBits 0 = 32 from rfl, h0]
          rfl
        · rw [show numFieldBase 1 = 0 from rfl, show numFieldBits 1 = 64 from rfl, h1]
          rfl
        · rw [show numFieldBase 2 = 0 from rfl, show numFieldBits 2 = 64 from rfl, h2]
          rfl
      · obtain ⟨i, hi, rfl⟩ := List.mem_map.mp hk
        obtain ⟨v, hv⟩ := regsList_ok_all fields (List.range 29) xs hre i hi
        have hi29 : i < 29 := List.mem_range.mp hi
        rw [show numFieldBase (4 + i) = 0 from by
            unfold numFieldBase; rw [if_neg (by omega)],
          show numFieldBits (4 + i) = 64 from by
            unfold numFieldBits; rw [if_neg (by omega)], hv]
        rfl
      · have h4 : k = 33 ∨ k = 34 ∨ k = 35 ∨ k = 36 := by simpa using hk
        rcases h4 with rfl | rfl | rfl | rfl
        · rw [show numFieldBase 33 = 0 from rfl, show numFieldBits 33 = 64 from rfl,
            parseNumF_ok_inv h33]
          rfl
        · rw [show numFieldBase 34 = 0 from rfl, show numFieldBits 34 = 64 from rfl,
            parseNumF_ok_inv h34]
          rfl
        · rw [show numFieldBase 35 = 0 from rfl, show numFieldBits 35 = 64 from rfl,
            parseNumF_ok_inv h35]
          rfl
        · rw [show numFieldBase 36 = 0 from rfl, show numFieldBits 36 = 64 from rfl,
            parseNumF_ok_inv h36]
          rfl
    · have hok : parseLineFields fields =
          .ok ⟨v0, v1, v2, ⟨ins⟩, xs ++ [v29, v30], vsp, vpc⟩ := by
        unfold parseLineFields
        rw [if_neg (by simp [hlen]), h0]
        dsimp only
        rw [h1]
        dsimp only
        rw [h2]
        dsimp only
        rw [hq]
        dsimp only
        rw [hre]
        dsimp only
        rw [h33]
        dsimp only
        rw [h34]
        dsimp only
        rw [h35]
        dsimp only
        rw [h36]
      exact ⟨_, hok⟩

/-- C8 (amended: provided the instruction field is not the lone quote
character that makes the quote-stripping fault — see C10): `ParseLine`
fails with a field-count error whenever the split does not yield exactly
37 fields; it returns a record only when every numeric field parses; and
whenever some numeric field fails to parse, it fails with a field-specific
error naming a failing field and its trimmed offending value. -/
theorem c8_parse_errors (line : String) :
    ((splitOnChar '|' line.data).length ≠ 37 →
      parseLine line = .fail (.fieldCount (splitOnChar '|' line.data).length)) ∧
    (∀ t, parseLine line = .ok t →
      ∀ k ∈ numFieldIdxs,
        (goParseUintL (goTrim ((splitOnChar '|' line.data).getD k []))
          (numFieldBase k) (numFieldBits k)).isSome = true) ∧
    ((splitOnChar '|' line.data).length = 37 →
      goTrim ((splitOnChar '|' line.data).getD 3 []) ≠ ['"'] →
      (∃ k ∈ numFieldIdxs,
        goParseUintL (goTrim ((splitOnChar '|' line.data).getD k []))
          (numFieldBase k) (numFieldBits k) = none) →
      ∃ k ∈ numFieldIdxs,
        goParseUintL (goTrim ((splitOnChar '|' line.data).getD k []))
          (numFieldBase k) (numFieldBits k) = none ∧
        parseLine line = .fail (.fieldErr (numFieldName k)
          ⟨goTrim ((splitOnChar '|' line.data).getD k [])⟩)) := by
  refine ⟨fun h => ?_, fun t ht k hk => ?_, fun hlen hquote hbad => ?_⟩
  · unfold parseLine parseLineFields
    rw [if_pos h]
  · by_cases hlen : (splitOnChar '|' line.data).length = 37
    · have ht2 : parseLineFields (splitOnChar '|' line.data) = .ok t := ht
      rcases parseLineFields_master _ hlen with ⟨k2, -, -, hres⟩ | ⟨-, hres⟩ | ⟨hall, -⟩
      · rw [ht2] at hres; simp at hres
      · rw [ht2] at hres; simp at hres
      · exact hall k hk
    · exfalso
      have ht2 : parseLineFields (splitOnChar '|' line.data) = .ok t := ht
      unfold parseLineFields at ht2
      rw [if_pos hlen] at ht2
      simp at ht2
  · rcases parseLineFields_master _ hlen with ⟨k, hk, hbadk, hres⟩ | ⟨hqnone, -⟩ |
      ⟨hall, -⟩
    · exact ⟨k, hk, hbadk, hres⟩
    · exact absurd hqnone (stripQuotes_ne_none hquote)
    · obtain ⟨k, hk, hbadk⟩ := hbad
      have h5 := hall k hk
      rw [hbadk] at h5
      simp at h5

/-- Counterexample to C8 as stated over every input string: on a 37-field
line whose x0 field is the unparseable `z` but whose instruction field is
the lone quote character, `ParseLine` panics instead of reporting the
field-specific error the claim promises. -/
theorem c8_counterexample :
    parseLine
        "1|2|3|\"|z|0|0|0|0|0|0|0|0|0|0|0|0|0|0|0|0|0|0|0|0|0|0|0|0|0|0|0|0|4|5|6|7"
      = LineResult.fault ∧
    goParseUintL
      (goTrim ((splitOnChar '|'
        ("1|2|3|\"|z|0|0|0|0|0|0|0|0|0|0|0|0|0|0|0|0|0|0|0|0|0|0|0|0|0|0|0|0|4|5|6|7"
          : String).data).getD 4 []))
      (numFieldBase 4) (numFieldBits 4) = none := by
  refine ⟨by decide, by decide⟩

/-- Witness for C8: a two-field line fails with the field-count error, and
a 37-field line with a benign instruction field and unparseable x0 fails
with the error naming x0 and the value `z`. -/
theorem c8_parse_errors_witness :
    parseLine "a|b" =
      .fail (.fieldCount (splitOnChar '|' ("a|b" : String).data).length) ∧
    parseLine
        "1|2|3|i|z|0|0|0|0|0|0|0|0|0|0|0|0|0|0|0|0|0|0|0|0|0|0|0|0|0|0|0|0|4|5|6|7"
      = .fail (.fieldErr "x0" "z") := by
  refine ⟨(c8_parse_errors "a|b").1 (by decide), by decide⟩

end TraceParse









